import Mathlib

/-!
Verification of the PKY document-ingestion pipeline.

Shallow embedding of the Python sources:
  src/core/document_processor.py   (DocumentProcessor)
  src/core/security_checks.py      (SecurityValidator)
  src/core/parallel_processing.py  (ParallelProcessor)
  src/core/app.py                  (extract_text_with_ocr)
  src/utilities/error_handler.py   (FileLimitHandler)
  src/config/settings.py           (Settings)

Text is modelled as `List Char` (a Python `str` is a sequence of code
points); raw file bytes as `List Nat`.  Behaviour of third-party
libraries (PyMuPDF/fitz, pytesseract, pandas, docx2txt, libmagic) is
modelled by explicit per-file outcome fields of `FileModel`, so that a
file's processing is a pure function of the file model.
-/

/-- Python `str` modelled as a list of code points. -/
abbrev Str := List Char

/-- Code points of a Lean string literal (used for concrete inputs). -/
def chars (s : String) : Str := s.data

/-- The set of characters matched by Python's `\s` (and stripped by
`str.strip()`) for `str` patterns: Unicode whitespace. -/
def wsB (c : Char) : Bool :=
  c = ' ' ∨ c = '\t' ∨ c = '\n' ∨ c.toNat = 0x0B ∨ c.toNat = 0x0C ∨
  c = '\r' ∨ c.toNat = 0x1C ∨ c.toNat = 0x1D ∨ c.toNat = 0x1E ∨
  c.toNat = 0x1F ∨ c.toNat = 0x85 ∨ c.toNat = 0xA0 ∨ c.toNat = 0x1680 ∨
  (0x2000 ≤ c.toNat ∧ c.toNat ≤ 0x200A) ∨ c.toNat = 0x2028 ∨
  c.toNat = 0x2029 ∨ c.toNat = 0x202F ∨ c.toNat = 0x205F ∨ c.toNat = 0x3000

/-- Characters removed by `_clean_text`'s first substitution:
`[\x00-\x1F\x7F-\x9F]` (non-printable control characters). -/
def ctrlB (c : Char) : Bool :=
  c.toNat ≤ 0x1F ∨ (0x7F ≤ c.toNat ∧ c.toNat ≤ 0x9F)

/-- `re.sub(r'[\x00-\x1F\x7F-\x9F]', '', text)`. -/
def removeCtrl (l : Str) : Str := l.filter (fun c => !ctrlB c)

/-- Worker for `collapseWs`: `prev` records whether the previous input
character was whitespace (so the current run has already emitted its
single space). -/
def collapseAux : Bool → Str → Str
  | _, [] => []
  | prev, c :: cs =>
    if wsB c then
      (if prev then collapseAux true cs else ' ' :: collapseAux true cs)
    else c :: collapseAux false cs

/-- `re.sub(r'\s+', ' ', text)`: every maximal whitespace run becomes a
single space. -/
def collapseWs (l : Str) : Str := collapseAux false l

/-- `str.strip()`: drop leading and trailing whitespace. -/
def trimL (l : Str) : Str :=
  ((l.dropWhile wsB).reverse.dropWhile wsB).reverse

/-- Characters matched by `[\-_]` in the scanner-artifact pattern. -/
def isDashB (c : Char) : Bool := c = '-' ∨ c = '_'

/-- `re.search` of `^\s*[\-_]+\s*$` against a newline-free string: the
whole string is whitespace, then a nonempty run of dashes/underscores,
then whitespace.  (`_clean_text` applies this pattern only after the
whitespace collapse, whose output never contains a newline, so the
multiline anchors degenerate to whole-string anchors.) -/
def isArtifact (l : Str) : Bool :=
  let t := l.dropWhile wsB
  let d := t.takeWhile isDashB
  !d.isEmpty && (t.drop d.length).all wsB

/-- `DocumentProcessor._clean_text` (src/core/document_processor.py):
remove non-printable characters, collapse whitespace runs to single
spaces and strip, drop a pure separator-run artifact. -/
def cleanText (l : Str) : Str :=
  let a := trimL (collapseWs (removeCtrl l))
  if isArtifact a then [] else a

/-- Is `b` a UTF-8 continuation byte (`0x80-0xBF`)? -/
def isCont (b : Nat) : Bool := 0x80 ≤ b ∧ b ≤ 0xBF

/-- Valid first continuation range for a 3-byte lead (excludes overlong
encodings and surrogates, as CPython does). -/
def cont1ok3 (b c1 : Nat) : Bool :=
  if b = 0xE0 then 0xA0 ≤ c1 ∧ c1 ≤ 0xBF
  else if b = 0xED then 0x80 ≤ c1 ∧ c1 ≤ 0x9F
  else isCont c1

/-- Valid first continuation range for a 4-byte lead. -/
def cont1ok4 (b c1 : Nat) : Bool :=
  if b = 0xF0 then 0x90 ≤ c1 ∧ c1 ≤ 0xBF
  else if b = 0xF4 then 0x80 ≤ c1 ∧ c1 ≤ 0x8F
  else isCont c1

/-- CPython's incremental UTF-8 decoder with a constant error
emission `repl`: `repl = []` gives `bytes.decode('utf-8', 'ignore')`,
`repl = [U+FFFD]` gives `bytes.decode('utf-8', 'replace')`.  On an
invalid sequence the maximal valid prefix of the sequence is consumed,
`repl` is emitted, and decoding resumes at the offending byte. -/
def decodeCore (repl : Str) : List Nat → Str
  | [] => []
  | b :: l =>
    if b < 0x80 then
      Char.ofNat b :: decodeCore repl l
    else if 0xC2 ≤ b ∧ b ≤ 0xDF then
      match l with
      | [] => repl
      | c1 :: l1 =>
        if isCont c1 then
          Char.ofNat (0x40 * (b - 0xC0) + (c1 - 0x80)) :: decodeCore repl l1
        else repl ++ decodeCore repl (c1 :: l1)
    else if 0xE0 ≤ b ∧ b ≤ 0xEF then
      match l with
      | [] => repl
      | c1 :: l1 =>
        if cont1ok3 b c1 then
          match l1 with
          | [] => repl
          | c2 :: l2 =>
            if isCont c2 then
              Char.ofNat (0x1000 * (b - 0xE0) + 0x40 * (c1 - 0x80) + (c2 - 0x80))
                :: decodeCore repl l2
            else repl ++ decodeCore repl (c2 :: l2)
        else repl ++ decodeCore repl (c1 :: l1)
    else if 0xF0 ≤ b ∧ b ≤ 0xF4 then
      match l with
      | [] => repl
      | c1 :: l1 =>
        if cont1ok4 b c1 then
          match l1 with
          | [] => repl
          | c2 :: l2 =>
            if isCont c2 then
              match l2 with
              | [] => repl
              | c3 :: l3 =>
                if isCont c3 then
                  Char.ofNat (0x40000 * (b - 0xF0) + 0x1000 * (c1 - 0x80) +
                      0x40 * (c2 - 0x80) + (c3 - 0x80)) :: decodeCore repl l3
                else repl ++ decodeCore repl (c3 :: l3)
            else repl ++ decodeCore repl (c2 :: l2)
        else repl ++ decodeCore repl (c1 :: l1)
    else repl ++ decodeCore repl l

/-- `bytes.decode('utf-8', errors='ignore')`. -/
def decodeIgnore (l : List Nat) : Str := decodeCore [] l

/-- `bytes.decode('utf-8', errors='replace')`. -/
def decodeReplace (l : List Nat) : Str := decodeCore [Char.ofNat 0xFFFD] l

/-! ## SecurityValidator (src/core/security_checks.py) -/

/-- Word characters for Python's `\b` (ASCII fragment: letters, digits,
underscore; the scanned signatures are ASCII). -/
def wordB (c : Char) : Bool :=
  ('a' ≤ c ∧ c ≤ 'z') ∨ ('A' ≤ c ∧ c ≤ 'Z') ∨ ('0' ≤ c ∧ c ≤ '9') ∨ c = '_'

/-- Case-insensitive match of keyword `kw` (given lowercase) against a
prefix of `l`; returns the remainder on success. -/
def ciPrefixDrop (kw : Str) (l : Str) : Option Str :=
  match kw, l with
  | [], rest => some rest
  | _ :: _, [] => none
  | k :: ks, c :: cs => if c.toLower = k then ciPrefixDrop ks cs else none

/-- One alternative of `\b(eval|system|exec|passthru)\s*\(` anchored at
the current position, with the word boundary already checked. -/
def shellAt (l : Str) : Bool :=
  ["eval", "system", "exec", "passthru"].any fun kw =>
    match ciPrefixDrop (chars kw) l with
    | some rest => (rest.dropWhile wsB).head? = some '('
    | none => false

/-- Positions of `l` as suffixes together with the preceding character
(none at the start of the string). -/
def posns (l : Str) : List (Option Char × Str) :=
  (none, l) :: (l.zip l.tails.tail).map (fun pc => (some pc.1, pc.2))

/-- `re.search(r'\b(eval|system|exec|passthru)\s*\(', content, re.I)`. -/
def shellMatch (l : Str) : Bool :=
  (posns l).any fun pos =>
    (match pos.1 with | none => true | some p => !wordB p) && shellAt pos.2

/-- `union\s+select` or `drop\s+table` anchored at the current position;
checks the trailing word boundary. -/
def sqlAt (l : Str) : Bool :=
  [("union", "select"), ("drop", "table")].any fun kw =>
    match ciPrefixDrop (chars kw.1) l with
    | some rest =>
      let ws := rest.takeWhile wsB
      if ws.isEmpty then false
      else
        match ciPrefixDrop (chars kw.2) (rest.drop ws.length) with
        | some rest2 =>
          match rest2.head? with
          | none => true
          | some c => !wordB c
        | none => false
    | none => false

/-- `re.search(r'\b(union\s+select|drop\s+table)\b', content, re.I)`. -/
def sqlMatch (l : Str) : Bool :=
  (posns l).any fun pos =>
    (match pos.1 with | none => true | some p => !wordB p) && sqlAt pos.2

/-- The closing tag `<\s*/\s*script\s*>` anchored at the current
position (whitespace maximal-munch is exact here: `/`, `t`, `>` are not
whitespace). -/
def closeTagAt (l : Str) : Bool :=
  match l with
  | '<' :: r =>
    match (r.dropWhile wsB) with
    | '/' :: r2 =>
      match ciPrefixDrop (chars "script") (r2.dropWhile wsB) with
      | some r3 => (r3.dropWhile wsB).head? = some '>'
      | none => false
    | _ => false
  | _ => false

/-- Search for the closing tag with the gap matched by `.*` (which does
not cross a newline). -/
def searchClose : Str → Bool
  | [] => false
  | l@(c :: rest) => closeTagAt l || (if c = '\n' then false else searchClose rest)

/-- `<\s*script[^>]*>` anchored at the current position, then the rest
of the pattern.  After `script`, `[^>]*>` deterministically runs to the
first `>`. -/
def scriptAt (l : Str) : Bool :=
  match l with
  | '<' :: r =>
    match ciPrefixDrop (chars "script") (r.dropWhile wsB) with
    | some r2 =>
      let attrs := r2.takeWhile (fun c => c ≠ '>')
      match r2.drop attrs.length with
      | '>' :: rest => searchClose rest
      | _ => false
    | none => false
  | _ => false

/-- `re.search(r'<\s*script[^>]*>.*<\s*/\s*script\s*>', content, re.I)`. -/
def scriptMatch (l : Str) : Bool := l.tails.any scriptAt

/-- `re.search(r'\x00|\xFF|\xFE', content)`: the decoded text contains
one of the code points U+0000, U+00FF, U+00FE. -/
def binMatch (l : Str) : Bool :=
  l.any fun c => c.toNat = 0x00 ∨ c.toNat = 0xFF ∨ c.toNat = 0xFE

/-- `SecurityValidator.MALWARE_SIGNATURES`: the raw pattern text paired
with the matcher it compiles to. -/
def malwareSignatures : List (String × (Str → Bool)) :=
  [("<\\s*script[^>]*>.*<\\s*/\\s*script\\s*>", scriptMatch),
   ("\\b(eval|system|exec|passthru)\\s*\\(", shellMatch),
   ("\\b(union\\s+select|drop\\s+table)\\b", sqlMatch),
   ("\\x00|\\xFF|\\xFE", binMatch)]

/-- The scan loop of `SecurityValidator._check_malware_patterns` over
the decoded content: first matching pattern wins. -/
def malwareScan (content : Str) : List (String × (Str → Bool)) → Bool × String
  | [] => (true, "")
  | (ps, m) :: rest =>
    if m content then (false, "Malware pattern detected: " ++ ps)
    else malwareScan content rest

/-- `SecurityValidator._check_malware_patterns`: the raw bytes are
decoded with `errors='ignore'` and scanned. -/
def checkMalware (bytes : List Nat) : Bool × String :=
  malwareScan (decodeIgnore bytes) malwareSignatures

/-- The four `mime_map` pairs of `_check_extension_mismatch`. -/
def mimeMap : List (String × String) :=
  [(".pdf", "application/pdf"),
   (".docx", "application/vnd.openxmlformats-officedocument.wordprocessingml.document"),
   (".jpg", "image/jpeg"),
   (".png", "image/png")]

/-- The byte signatures of `_check_magic_numbers.valid_headers`, in
source order. -/
def validHeaders : List (List Nat) :=
  [[0x25, 0x50, 0x44, 0x46, 0x2D],
   [0x50, 0x4B, 0x03, 0x04],
   [0xFF, 0xD8, 0xFF],
   [0x89, 0x50, 0x4E, 0x47]]

/-- Model of the third-party `magic.from_file(path, mime=True)`
(libmagic): content sniffing keyed on the leading byte signature;
unrecognized content reports as plain text.  A PK-signed container is
reported as the OOXML word-processing type (as libmagic does for a real
`.docx`; a bare non-OOXML zip would instead report `application/zip` —
the proofs below use only that the PK mime differs from the PDF, JPEG
and PNG types). -/
def mimeOf (bytes : List Nat) : String :=
  if List.isPrefixOf [0x25, 0x50, 0x44, 0x46, 0x2D] bytes then "application/pdf"
  else if List.isPrefixOf [0x50, 0x4B, 0x03, 0x04] bytes then
    "application/vnd.openxmlformats-officedocument.wordprocessingml.document"
  else if List.isPrefixOf [0xFF, 0xD8, 0xFF] bytes then "image/jpeg"
  else if List.isPrefixOf [0x89, 0x50, 0x4E, 0x47] bytes then "image/png"
  else "text/plain"

/-- `SecurityValidator._check_extension_mismatch`. -/
def checkMismatch (ext : String) (bytes : List Nat) : Bool × String :=
  match mimeMap.lookup ext with
  | some want =>
    let mime := mimeOf bytes
    if mime ≠ want then
      (false, "Extension-MIME mismatch: " ++ ext ++ " != " ++ mime)
    else (true, "")
  | none => (true, "")

/-- Processing limits of `Settings` that are read from the environment
(src/config/settings.py); `MIN_TEXT_LENGTH` is the literal 50. -/
structure Settings where
  maxFileSize : Nat
  maxPages : Nat
deriving DecidableEq

/-- `Settings.MIN_TEXT_LENGTH`. -/
def MIN_TEXT_LENGTH : Nat := 50

/-- `SecurityValidator._check_max_size` (the file's byte length against
`Settings.MAX_FILE_SIZE`). -/
def checkMaxSize (S : Settings) (bytes : List Nat) : Bool × String :=
  if bytes.length > S.maxFileSize then
    (false, "File exceeds " ++ toString S.maxFileSize ++ " byte limit")
  else (true, "")

/-- `SecurityValidator._check_magic_numbers`: only the first FOUR bytes
are read, then compared with `header.startswith(sig)` — so the 5-byte
`%PDF-` signature can never match a 4-byte header. -/
def checkMagic (bytes : List Nat) : Bool × String :=
  let header := bytes.take 4
  if validHeaders.any (fun sg => List.isPrefixOf sg header) then (true, "")
  else (false, "Invalid file header")

/-- `SecurityValidator.validate_file`: the four checks in source order,
stopping at the first failure. -/
def validateFileBytes (S : Settings) (ext : String) (bytes : List Nat) :
    Bool × String :=
  let c1 := checkMismatch ext bytes
  if !c1.1 then (false, c1.2)
  else
    let c2 := checkMalware bytes
    if !c2.1 then (false, c2.2)
    else
      let c3 := checkMaxSize S bytes
      if !c3.1 then (false, c3.2)
      else
        let c4 := checkMagic bytes
        if !c4.1 then (false, c4.2)
        else (true, "File validated")

/-- The magic-number signature `valid_headers` registers for an
extension (the reverse of its sig-to-extension mapping). -/
def sigFor (ext : String) : List Nat :=
  if ext = ".pdf" then [0x25, 0x50, 0x44, 0x46, 0x2D]
  else if ext = ".docx" then [0x50, 0x4B, 0x03, 0x04]
  else if ext = ".jpg" then [0xFF, 0xD8, 0xFF]
  else [0x89, 0x50, 0x4E, 0x47]

/-! ## DocumentProcessor (src/core/document_processor.py) -/

instance {ε α : Type} [DecidableEq ε] [DecidableEq α] : DecidableEq (Except ε α) := fun
  | .error a, .error b =>
    if h : a = b then isTrue (congrArg Except.error h)
    else isFalse (fun he => h (Except.error.inj he))
  | .error _, .ok _ => isFalse Except.noConfusion
  | .ok _, .error _ => isFalse Except.noConfusion
  | .ok a, .ok b =>
    if h : a = b then isTrue (congrArg Except.ok h)
    else isFalse (fun he => h (Except.ok.inj he))

/-- One page of a `fitz.Document`: the outcome of `page.get_text()` and
the outcome of rasterizing and OCR-ing the page
(`get_pixmap`/`image_to_string`). An `Except.error` is a raised Python
exception carrying `str(e)`. -/
structure PageM where
  native : Except String Str
  ocrText : Except String Str
deriving DecidableEq

/-- Per-file model: the raw bytes plus the outcomes of every
third-party call the pipeline can make on this file.  `fitz` is the
outcome of `fitz.Document(path)` (the list of pages on success);
`docx`, `imgOcr`, `csv`, `xlsx` are the outcomes of
`docx2txt.process`, `pytesseract.image_to_string(Image.open(path))`,
`pd.read_csv(...).to_markdown()` and
`pd.read_excel(...).dropna(...).to_markdown()`. -/
structure FileModel where
  bytes : List Nat
  fitz : Except String (List PageM)
  docx : Except String Str
  imgOcr : Except String Str
  csv : Except String Str
  xlsx : Except String Str
deriving DecidableEq

/-- The concatenation loop of `DocumentProcessor._run_ocr` over the
document's pages (`[OCR Page n]` header per page, `page.number` is the
0-based index). -/
def runOcrPages (i : Nat) : List PageM → Except String Str
  | [] => .ok []
  | p :: ps =>
    match p.ocrText with
    | .error e => .error e
    | .ok t =>
      match runOcrPages (i + 1) ps with
      | .error e => .error e
      | .ok rest =>
        .ok (chars ("[OCR Page " ++ toString i ++ "]\n") ++ t ++ chars "\n\n" ++ rest)

/-- `DocumentProcessor._run_ocr`: opens the document again and OCRs
every page; any raised exception propagates. -/
def runOcr (fm : FileModel) : Except String Str :=
  match fm.fitz with
  | .error e => .error e
  | .ok pages => runOcrPages 0 pages

/-- First page whose `get_text()` raises, if any (the extraction loop
stops there). -/
def firstPageErr : List PageM → Option String
  | [] => none
  | p :: ps => match p.native with
    | .error e => some e
    | .ok _ => firstPageErr ps

/-- The native text accumulated by the loop `text += page.get_text() +
"\n\n"` (pages that would raise contribute nothing; the value is only
used when no page raises). -/
def nativeConcat : List PageM → Str
  | [] => []
  | p :: ps => (match p.native with | .ok t => t | .error _ => []) ++
      chars "\n\n" ++ nativeConcat ps

/-- `DocumentProcessor._process_pdf`, instrumented: the second component
is a ghost flag recording whether `_run_ocr` was invoked on the file.
Control flow of the source: native per-page extraction; if it raises,
full OCR (a second raise propagates); if the stripped text is shorter
than `MIN_TEXT_LENGTH`, full OCR replaces it (an OCR raise inside the
`try` is re-tried by the `except` handler with the same deterministic
outcome); the result is `_clean_text`-ed. -/
def processPdfTr (fm : FileModel) : Except String Str × Bool :=
  match fm.fitz with
  | .error _ =>
    (match runOcr fm with
     | .ok o => (.ok (cleanText o), true)
     | .error e2 => (.error e2, true))
  | .ok pages =>
    match firstPageErr pages with
    | some _ =>
      (match runOcr fm with
       | .ok o => (.ok (cleanText o), true)
       | .error e2 => (.error e2, true))
    | none =>
      let native := nativeConcat pages
      if (trimL native).length < MIN_TEXT_LENGTH then
        (match runOcr fm with
         | .ok o => (.ok (cleanText o), true)
         | .error e2 => (.error e2, true))
      else (.ok (cleanText native), false)

/-- `DocumentProcessor._process_pdf`. -/
def processPdf (fm : FileModel) : Except String Str := (processPdfTr fm).1

/-- The OCR-fallback trigger condition of `_process_pdf`: native
extraction raised (document open or some page), or the stripped
concatenated native text is below `MIN_TEXT_LENGTH`. -/
def ocrTriggerB (fm : FileModel) : Bool :=
  match fm.fitz with
  | .error _ => true
  | .ok pages =>
    (firstPageErr pages).isSome || (trimL (nativeConcat pages)).length < MIN_TEXT_LENGTH

/-- The extractor dispatch table `self.processors`, applied to the
file: `.pdf`, `.docx`, `.txt`, `.png`, `.jpg`, `.jpeg`, `.csv`,
`.xlsx`; a missing key raises `ValueError` in `_process_single`. -/
def runProcessor (ext : String) (fm : FileModel) : Except String Str :=
  if ext = ".pdf" then processPdf fm
  else if ext = ".docx" then fm.docx.map cleanText
  else if ext = ".txt" then .ok (cleanText (decodeReplace fm.bytes))
  else if ext = ".png" ∨ ext = ".jpg" ∨ ext = ".jpeg" then fm.imgOcr.map cleanText
  else if ext = ".csv" then fm.csv.map cleanText
  else if ext = ".xlsx" then fm.xlsx.map cleanText
  else .error ("Unsupported file type: " ++ ext)

/-- Extensions with an extractor registered in `self.processors`. -/
def processorExts : List String :=
  [".pdf", ".docx", ".txt", ".png", ".jpg", ".jpeg", ".csv", ".xlsx"]

/-- The metadata dictionary of `_generate_metadata` (timestamps are not
modelled; `author`/`title` carry no information the claims use). -/
structure Metadata where
  format : String
  size : Nat
  pages : Option Nat
deriving DecidableEq

/-- `DocumentProcessor._generate_metadata` on the temp copy: for a PDF
the document is opened again (an open failure raises). -/
def genMetadata (fm : FileModel) (ext : String) : Except String Metadata :=
  if ext = ".pdf" then
    match fm.fitz with
    | .error e => .error e
    | .ok pages => .ok ⟨ext.drop 1, fm.bytes.length, some pages.length⟩
  else .ok ⟨ext.drop 1, fm.bytes.length, none⟩

/-- `DocumentProcessor._get_pdf_page_count`: any exception (including a
missing or unopenable file) yields 0. -/
def pdfPageCount (fm : Option FileModel) : Nat :=
  match fm with
  | none => 0
  | some fm => match fm.fitz with
    | .error _ => 0
    | .ok pages => pages.length

/-- `pathlib.Path(p).suffix.lower()`: pathlib takes the final path
component's text after the LAST dot, provided that dot is neither the
first nor the last character of the name (`0 < i < len(name)-1`). -/
def sfx (p : String) : String :=
  let name := (p.data.reverse.takeWhile (fun c => c ≠ '/')).reverse
  let afterDot := name.reverse.takeWhile (fun c => c ≠ '.')
  if afterDot.length = name.length then ""
  else
    let i := name.length - 1 - afterDot.length
    if 0 < i ∧ i + 1 < name.length then
      ⟨('.' :: afterDot.reverse).map Char.toLower⟩
    else ""

/-- `FileLimitHandler.check_page_count`'s failure message.  The third
fragment of the source's implicit string concatenation is not an
f-string, so `{Settings.MAX_PAGES}` appears literally. -/
def pageMsg (S : Settings) (pc : Nat) : String :=
  "Document exceeds " ++ toString S.maxPages ++ " page limit. " ++
  "Please split your " ++ toString pc ++ "-page document into " ++
  "chunks under \x7bSettings.MAX_PAGES\x7d pages each."

/-- `FileLimitHandler.check_file_size`'s failure message (the source
interpolates megabyte floats; the text is abbreviated to the sizes in
bytes — the claims depend only on the message being recorded). -/
def sizeMsg (S : Settings) (size : Nat) : String :=
  "File exceeds " ++ toString S.maxFileSize ++ " byte limit. Actual size: " ++
  toString size ++ " bytes"

/-- A file system: which paths exist and their models. -/
abbrev FS := String → Option FileModel

/-- `DocumentProcessor._process_single`: limit checks append warnings
(and do NOT stop processing); unsupported extensions raise; a missing
file raises at the `check_file_size` stat; then the extractor and
metadata run on the temp copy. -/
def processSingle (S : Settings) (fs : FS) (p : String) :
    Except String (Str × Metadata × List String) :=
  let ext := sfx p
  match fs p with
  | none => .error ("No such file or directory: " ++ p)
  | some fm =>
    let w1 : List String :=
      if ext = ".pdf" ∧ pdfPageCount (some fm) > S.maxPages then
        [pageMsg S (pdfPageCount (some fm))]
      else []
    let w2 := w1 ++
      (if fm.bytes.length > S.maxFileSize then [sizeMsg S fm.bytes.length] else [])
    if ext ∈ processorExts then
      match runProcessor ext fm with
      | .error e => .error e
      | .ok content =>
        match genMetadata fm ext with
        | .error e => .error e
        | .ok md => .ok (content, md, w2)
    else .error ("Unsupported file type: " ++ ext)

/-- One value of the per-file result dictionary of
`DocumentProcessor.process_batch`. -/
structure Entry where
  content : Str
  metadata : Option Metadata
  warnings : List String
deriving DecidableEq

/-- How `process_batch` turns a worker outcome into an entry: a raised
exception becomes empty content, empty metadata and a warning. -/
def entryOf (r : Except String (Str × Metadata × List String)) : Entry :=
  match r with
  | .ok (c, m, w) => ⟨c, some m, w⟩
  | .error e => ⟨[], none, ["Processing failed: " ++ e]⟩

/-- Python-dict insertion into an association list: overwrite in place
if the key exists, else append. -/
def dinsert (d : List (String × Entry)) (k : String) (v : Entry) :
    List (String × Entry) :=
  if d.any (fun kv => kv.1 = k) then
    d.map (fun kv => if kv.1 = k then (k, v) else kv)
  else d ++ [(k, v)]

/-- Dictionary lookup. -/
def dlookup (k : String) (d : List (String × Entry)) : Option Entry :=
  (d.find? (fun kv => kv.1 = k)).map (fun kv => kv.2)

/-- Dictionary keys in insertion order. -/
def dkeys (d : List (String × Entry)) : List String := d.map (fun kv => kv.1)

/-- `DocumentProcessor.process_batch`: one future per submitted path
(duplicates included), each outcome caught at the worker boundary and
written into the results dict under its path. -/
def processBatch (S : Settings) (fs : FS) (paths : List String) :
    List (String × Entry) :=
  paths.foldl (fun d p => dinsert d p (entryOf (processSingle S fs p))) []

/-- First occurrences of a list, in order (the key set a Python dict
accumulates over the list). -/
def dedupFirst (paths : List String) : List String :=
  paths.foldl (fun acc p => if p ∈ acc then acc else acc ++ [p]) []

/-! ## extract_text_with_ocr (src/core/app.py, lines 129-150) -/

/-- `MIN_TEXT_LENGTH` in src/core/app.py (same literal 50). -/
def APP_MIN_TEXT_LENGTH : Nat := 50

/-- What one loop iteration of `extract_text_with_ocr` appends for a
page, if anything: `none` when the page raises (native extraction, or
rasterization/OCR when the native text is short) and the `except`
clause `continue`s; otherwise the native text, or the OCR text wrapped
with its provenance marker. -/
def pageBlock (p : PageM) : Option Str :=
  match p.native with
  | .error _ => none
  | .ok t =>
    if (trimL t).length < APP_MIN_TEXT_LENGTH then
      match p.ocrText with
      | .error _ => none
      | .ok o => some (chars "[OCR EXTRACTED]\n" ++ o ++ chars "\n")
    else some t

/-- The text a page contributes to `full_text` (with the `"\n\n"`
appended by the loop); skipped pages contribute nothing. -/
def blockText (p : PageM) : Str :=
  match pageBlock p with
  | none => []
  | some b => b ++ chars "\n\n"

/-- The `full_text` accumulated by `extract_text_with_ocr`'s loop. -/
def extractLoop (pages : List PageM) : Str := (pages.map blockText).flatten

/-- `extract_text_with_ocr(pdf_path)`: the accumulated text,
`.strip()`-ed. -/
def extractTextWithOcr (pages : List PageM) : Str := trimL (extractLoop pages)

/-! ## ParallelProcessor (src/core/parallel_processing.py) -/

/-- One submitted task as the generic runner sees it: its `id`, the
wall-clock time at which its future completes, and the outcome of
`process_func(task)` inside `_safe_execute`. -/
structure PTask where
  id : String
  finish : Nat
  outcome : Except String String
deriving DecidableEq

/-- Stable insertion of a task into a list sorted by completion time. -/
def insertByFinish (t : PTask) : List PTask → List PTask
  | [] => [t]
  | u :: us => if u.finish ≤ t.finish then u :: insertByFinish t us
      else t :: u :: us

/-- Tasks in completion order (the order `as_completed` yields). -/
def sortByFinish : List PTask → List PTask
  | [] => []
  | t :: ts => insertByFinish t (sortByFinish ts)

/-- Python-dict insertion for the parallel runner's results map. -/
def pinsert (d : List (String × Option String)) (k : String)
    (v : Option String) : List (String × Option String) :=
  if d.any (fun kv => kv.1 = k) then
    d.map (fun kv => if kv.1 = k then (k, v) else kv)
  else d ++ [(k, v)]

/-- `ParallelProcessor.process_batch(tasks, process_func, timeout)`.
`concurrent.futures.as_completed(future_to_id, timeout=timeout)` yields
completed futures in completion order and RAISES `TimeoutError` out of
the `for` header once the deadline passes with futures still pending —
the surrounding `try` only guards `future.result()`, so the whole call
raises and the accumulated `results` dict is lost.  A task whose
function raised is recorded as `None`. -/
def parProcessBatch (tasks : List PTask) (timeout : Nat) :
    Except String (List (String × Option String)) :=
  if tasks.all (fun t => t.finish ≤ timeout) then
    .ok ((sortByFinish tasks).foldl
      (fun d t => pinsert d t.id (match t.outcome with
        | .ok v => some v
        | .error _ => none)) [])
  else .error "concurrent.futures.TimeoutError"

/-! ## Concrete fixtures for counterexamples and witnesses -/

/-- Pages of a successfully opened document (empty when open raised;
only used under that guard). -/
def nativePages (fm : FileModel) : List PageM :=
  match fm.fitz with
  | .ok ps => ps
  | .error _ => []

/-- A small settings instance (the limits are environment-configured). -/
def S0 : Settings := ⟨100, 800⟩

/-- Settings with a 3-byte size limit. -/
def S1 : Settings := ⟨3, 800⟩

/-- An ordinary 5-byte text file. -/
def fmTxt : FileModel :=
  ⟨(chars "hello").map Char.toNat, .error "not a pdf", .error "unused",
   .error "unused", .error "unused", .error "unused"⟩

/-- File system for the C1 fixtures. -/
def fsC1 : FS := fun p => if p = "a.txt" then some fmTxt else none

/-- Native body text of a PDF whose bytes do not start with `%PDF-`
(PyMuPDF tolerates a polluted header and extracts normally). -/
def pdfLong : Str :=
  chars "This is a perfectly extractable PDF body with plenty of native text."

/-- A `.pdf` file whose bytes start with junk before the `%PDF-`
marker: magic-mismatched for the validator, but opens fine. -/
def fmC3 : FileModel :=
  ⟨(chars "junk%PDF-1.4").map Char.toNat,
   .ok [⟨.ok pdfLong, .ok (chars "ocr text")⟩],
   .error "unused", .error "unused", .error "unused", .error "unused"⟩

/-- File system for the C3 counterexample. -/
def fsC3 : FS := fun p => if p = "doc.pdf" then some fmC3 else none

/-- The batch entry the pipeline produces for the mismatched PDF. -/
def eC3 : Entry := entryOf (processSingle S0 fsC3 "doc.pdf")

/-- File system for the C4 counterexample (a text file over the S1
size limit). -/
def fsC4 : FS := fun p => if p = "a.txt" then some fmTxt else none

/-- The batch entry for the oversized text file. -/
def eC4 : Entry := entryOf (processSingle S1 fsC4 "a.txt")

/-- An empty text file. -/
def fmEmpty : FileModel :=
  ⟨[], .error "not a pdf", .error "unused", .error "unused",
   .error "unused", .error "unused"⟩

/-- File system for the C9 counterexample. -/
def fsC9 : FS := fun p => if p = "e.txt" then some fmEmpty else none

/-- The batch entry for the empty text file. -/
def eC9 : Entry := entryOf (processSingle S0 fsC9 "e.txt")

/-- An empty file system (every stat raises). -/
def fsNone : FS := fun _ => none

/-- Native text of the first page of the C6 counterexample document. -/
def natC6 : Str :=
  chars "Page one native body text with sufficient length for extraction."

/-- A 2-page PDF whose second page raises during `get_text()`. -/
def fmC6 : FileModel :=
  ⟨[0x25],
   .ok [⟨.ok natC6, .ok (chars "alpha")⟩, ⟨.error "corrupt page", .ok (chars "beta")⟩],
   .error "unused", .error "unused", .error "unused", .error "unused"⟩

/-- A page that raises during native extraction (for the C6 witness). -/
def pgFail : PageM := ⟨.error "boom", .ok (chars "t")⟩

/-- A page with long native text (for the C6 witness). -/
def pgOk : PageM := ⟨.ok natC6, .error "ocr unavailable"⟩

/-- A 1-page PDF with long native text and a broken OCR engine (for
the C7 witness: no OCR is invoked). -/
def fmC7 : FileModel :=
  ⟨[0x25], .ok [pgOk], .error "unused", .error "unused", .error "unused",
   .error "unused"⟩

/-- Does `needle` occur contiguously inside `hay`? -/
def containsSeq (needle hay : Str) : Bool :=
  hay.tails.any (fun t => List.isPrefixOf needle t)

/-- No two adjacent whitespace characters (the shape of collapsed
text). -/
def noPairWs (a b : Char) : Prop := ¬ (wsB a = true ∧ wsB b = true)

/-- The head of the list, if any, is not whitespace. -/
def hdOk (l : Str) : Prop := ∀ c, l.head? = some c → wsB c = false

/-! ## Association-list (Python dict) lemmas -/

lemma dlookup_map_overwrite (d : List (String × Entry)) (k k' : String) (v : Entry)
    (hne : k ≠ k') :
    dlookup k (d.map (fun kv => if kv.1 = k' then (k', v) else kv)) = dlookup k d := by
  induction d with
  | nil => rfl
  | cons kv rest ih =>
    simp only [List.map_cons, dlookup, List.find?_cons]
    by_cases hk : kv.1 = k'
    · rw [if_pos hk]
      have h1 : (decide ((k', v).1 = k)) = false := by simp [Ne.symm hne]
      have h2 : (decide (kv.1 = k)) = false := by simp [hk, Ne.symm hne]
      rw [h1, h2]
      exact ih
    · rw [if_neg hk]
      cases hkk : decide (kv.1 = k) with
      | true => rfl
      | false => exact ih

lemma dlookup_map_hit (d : List (String × Entry)) (k : String) (v : Entry)
    (h : d.any (fun kv => kv.1 = k) = true) :
    dlookup k (d.map (fun kv => if kv.1 = k then (k, v) else kv)) = some v := by
  induction d with
  | nil => simp at h
  | cons kv rest ih =>
    simp only [List.map_cons, dlookup, List.find?_cons]
    by_cases hk : kv.1 = k
    · rw [if_pos hk]
      have h1 : (decide ((k, v).1 = k)) = true := by simp
      rw [h1]
      rfl
    · have h' : rest.any (fun kv => kv.1 = k) = true := by
        simp only [List.any_cons] at h
        rcases Bool.or_eq_true_iff.mp h with h1 | h1
        · exact absurd (of_decide_eq_true h1) hk
        · exact h1
      rw [if_neg hk]
      have h2 : (decide (kv.1 = k)) = false := by simp [hk]
      rw [h2]
      exact ih h'

lemma dlookup_append_single (d : List (String × Entry)) (k k' : String) (v : Entry)
    (h : d.any (fun kv => kv.1 = k') = false) :
    dlookup k (d ++ [(k', v)]) = if k = k' then some v else dlookup k d := by
  induction d with
  | nil =>
    by_cases hkk : k = k'
    · simp [dlookup, List.find?_cons, hkk]
    · have h1 : (decide ((k', v).1 = k)) = false := by simp [Ne.symm hkk]
      simp only [List.nil_append, dlookup, List.find?_cons, h1, if_neg hkk]
  | cons kv rest ih =>
    simp only [List.any_cons, Bool.or_eq_false_iff] at h
    obtain ⟨h1, h2⟩ := h
    have hkv : kv.1 ≠ k' := by simpa using h1
    simp only [List.cons_append, dlookup, List.find?_cons]
    by_cases hk : kv.1 = k
    · have hne : k ≠ k' := hk ▸ hkv
      have hd : (decide (kv.1 = k)) = true := by simp [hk]
      rw [hd, if_neg hne]
    · have hd : (decide (kv.1 = k)) = false := by simp [hk]
      rw [hd]
      exact ih h2

lemma dlookup_dinsert (d : List (String × Entry)) (k k' : String) (v : Entry) :
    dlookup k (dinsert d k' v) = if k = k' then some v else dlookup k d := by
  unfold dinsert
  by_cases h : d.any (fun kv => kv.1 = k') = true
  · rw [if_pos h]
    by_cases hkk : k = k'
    · subst hkk
      rw [if_pos rfl]
      exact dlookup_map_hit d k v h
    · rw [if_neg hkk]
      exact dlookup_map_overwrite d k k' v hkk
  · have h' : d.any (fun kv => kv.1 = k') = false := by
      cases hx : d.any (fun kv => kv.1 = k') with
      | true => exact absurd hx h
      | false => rfl
    rw [if_neg h]
    exact dlookup_append_single d k k' v h'

lemma dlookup_foldl (S : Settings) (fs : FS) :
    ∀ (paths : List String) (d : List (String × Entry)) (k : String),
    dlookup k (paths.foldl (fun d p => dinsert d p (entryOf (processSingle S fs p))) d)
      = if k ∈ paths then some (entryOf (processSingle S fs k)) else dlookup k d := by
  intro paths
  induction paths with
  | nil => intro d k; simp
  | cons p ps ih =>
    intro d k
    simp only [List.foldl_cons]
    rw [ih]
    by_cases hps : k ∈ ps
    · simp [hps, List.mem_cons]
    · by_cases hp : k = p
      · subst hp
        simp [hps, dlookup_dinsert]
      · simp [hps, hp, dlookup_dinsert]

lemma any_key_iff (d : List (String × Entry)) (k : String) :
    d.any (fun kv => kv.1 = k) = true ↔ k ∈ dkeys d := by
  simp only [dkeys, List.any_eq_true, List.mem_map, decide_eq_true_eq]

lemma dkeys_dinsert (d : List (String × Entry)) (k : String) (v : Entry) :
    dkeys (dinsert d k v) = if k ∈ dkeys d then dkeys d else dkeys d ++ [k] := by
  unfold dinsert
  by_cases h : d.any (fun kv => kv.1 = k) = true
  · rw [if_pos h, if_pos ((any_key_iff d k).mp h)]
    simp only [dkeys, List.map_map]
    apply List.map_congr_left
    intro kv _
    by_cases hk : kv.1 = k
    · simp [hk]
    · simp [hk]
  · rw [if_neg h, if_neg (fun hm => h ((any_key_iff d k).mpr hm))]
    simp [dkeys]

lemma dkeys_foldl (S : Settings) (fs : FS) :
    ∀ (paths : List String) (d : List (String × Entry)),
    dkeys (paths.foldl (fun d p => dinsert d p (entryOf (processSingle S fs p))) d)
      = paths.foldl (fun a p => if p ∈ a then a else a ++ [p]) (dkeys d) := by
  intro paths
  induction paths with
  | nil => intro d; rfl
  | cons p ps ih =>
    intro d
    simp only [List.foldl_cons]
    rw [ih, dkeys_dinsert]

lemma mem_dedup_foldl (p : String) :
    ∀ (paths : List String) (acc : List String),
    (p ∈ paths.foldl (fun a q => if q ∈ a then a else a ++ [q]) acc) ↔
      p ∈ acc ∨ p ∈ paths := by
  intro paths
  induction paths with
  | nil => intro acc; simp
  | cons q ps ih =>
    intro acc
    simp only [List.foldl_cons]
    rw [ih]
    by_cases hq : q ∈ acc
    · rw [if_pos hq]
      simp only [List.mem_cons]
      constructor
      · rintro (h | h)
        · exact Or.inl h
        · exact Or.inr (Or.inr h)
      · rintro (h | h | h)
        · exact Or.inl h
        · exact Or.inl (h ▸ hq)
        · exact Or.inr h
    · rw [if_neg hq]
      simp only [List.mem_append, List.mem_cons, List.mem_singleton,
        List.not_mem_nil, or_false]
      tauto

/-! ## Whitespace and normalizer lemmas -/

lemma dropWhile_head_not (p : Char → Bool) :
    ∀ (l : Str) (c : Char), (l.dropWhile p).head? = some c → p c = false := by
  intro l
  induction l with
  | nil => intro c h; simp at h
  | cons a t ih =>
    intro c h
    by_cases hp : p a
    · rw [List.dropWhile_cons, if_pos hp] at h
      exact ih c h
    · rw [List.dropWhile_cons, if_neg hp] at h
      simp only [List.head?_cons, Option.some.injEq] at h
      subst h
      exact Bool.of_not_eq_true hp

lemma dropWhile_eq_self_of_head (p : Char → Bool) (l : Str)
    (h : ∀ c, l.head? = some c → p c = false) : l.dropWhile p = l := by
  cases l with
  | nil => rfl
  | cons a t =>
    rw [List.dropWhile_cons, if_neg]
    simp [h a rfl]

lemma dropWhile_dropWhile (p : Char → Bool) (l : Str) :
    (l.dropWhile p).dropWhile p = l.dropWhile p :=
  dropWhile_eq_self_of_head p _ (fun c h => dropWhile_head_not p l c h)

lemma trimL_trimL (l : Str) : trimL (trimL l) = trimL l := by
  set A := l.dropWhile wsB with hA
  have hyrev : (trimL l).reverse = A.reverse.dropWhile wsB := by
    simp [trimL, hA]
  have hpref : (trimL l) ++ (A.reverse.takeWhile wsB).reverse = A := by
    have h2 : (A.reverse.dropWhile wsB).reverse ++ (A.reverse.takeWhile wsB).reverse
        = A := by
      rw [← List.reverse_append, List.takeWhile_append_dropWhile, List.reverse_reverse]
    rw [← hyrev, List.reverse_reverse] at h2
    exact h2
  have hstep1 : (trimL l).dropWhile wsB = trimL l := by
    apply dropWhile_eq_self_of_head
    intro d hd
    have hhead : A.head? = some d := by
      cases hy : trimL l with
      | nil => rw [hy] at hd; simp at hd
      | cons c y' =>
        rw [hy] at hd
        simp only [List.head?_cons, Option.some.injEq] at hd
        subst hd
        rw [← hpref, hy]
        rfl
    exact dropWhile_head_not wsB l d hhead
  have hstep2 : (trimL l).reverse.dropWhile wsB = (trimL l).reverse := by
    rw [hyrev]
    exact dropWhile_dropWhile wsB A.reverse
  have hdef : trimL (trimL l)
      = (((trimL l).dropWhile wsB).reverse.dropWhile wsB).reverse := rfl
  rw [hdef, hstep1, hstep2, List.reverse_reverse]

lemma mem_dropWhile (p : Char → Bool) (l : Str) (c : Char)
    (h : c ∈ l.dropWhile p) : c ∈ l :=
  (List.dropWhile_sublist p (l := l)).mem h

lemma mem_trimL (l : Str) (c : Char) (h : c ∈ trimL l) : c ∈ l := by
  unfold trimL at h
  rw [List.mem_reverse] at h
  have h2 := mem_dropWhile wsB _ c h
  rw [List.mem_reverse] at h2
  exact mem_dropWhile wsB l c h2

lemma trimL_eq_nil_iff (l : Str) : trimL l = [] ↔ ∀ c ∈ l, wsB c = true := by
  unfold trimL
  rw [List.reverse_eq_nil_iff, List.dropWhile_eq_nil_iff]
  constructor
  · intro h c hc
    rcases List.mem_append.mp (by
        rw [List.takeWhile_append_dropWhile (p := wsB) (l := l)]; exact hc :
        c ∈ l.takeWhile wsB ++ l.dropWhile wsB) with h1 | h1
    · exact List.mem_takeWhile_imp h1
    · exact h c (List.mem_reverse.mpr h1)
  · intro h c hc
    exact h c (mem_dropWhile wsB l c (List.mem_reverse.mp hc))

lemma collapse_mem : ∀ (prev : Bool) (l : Str) (c : Char),
    c ∈ collapseAux prev l → c ∈ l ∨ c = ' ' := by
  intro prev l
  induction l generalizing prev with
  | nil =>
    intro c h
    cases prev <;> exact absurd h (List.not_mem_nil c)
  | cons a t ih =>
    intro c h
    by_cases hw : wsB a
    · rw [collapseAux, if_pos hw] at h
      cases prev with
      | true =>
        rw [if_pos rfl] at h
        rcases ih true c h with h1 | h1
        · exact Or.inl (List.mem_cons_of_mem a h1)
        · exact Or.inr h1
      | false =>
        rw [if_neg Bool.false_ne_true] at h
        simp only [List.mem_cons] at h
        rcases h with h1 | h1
        · exact Or.inr h1
        · rcases ih true c h1 with h2 | h2
          · exact Or.inl (List.mem_cons_of_mem a h2)
          · exact Or.inr h2
    · rw [collapseAux, if_neg hw] at h
      simp only [List.mem_cons] at h
      rcases h with h1 | h1
      · exact Or.inl (h1 ▸ List.mem_cons_self a t)
      · rcases ih false c h1 with h2 | h2
        · exact Or.inl (List.mem_cons_of_mem a h2)
        · exact Or.inr h2

lemma collapse_ws_space : ∀ (prev : Bool) (l : Str) (c : Char),
    c ∈ collapseAux prev l → wsB c = true → c = ' ' := by
  intro prev l
  induction l generalizing prev with
  | nil =>
    intro c h
    cases prev <;> exact absurd h (List.not_mem_nil c)
  | cons a t ih =>
    intro c h hw
    by_cases hwa : wsB a
    · rw [collapseAux, if_pos hwa] at h
      cases prev with
      | true =>
        rw [if_pos rfl] at h
        exact ih true c h hw
      | false =>
        rw [if_neg Bool.false_ne_true] at h
        simp only [List.mem_cons] at h
        rcases h with h1 | h1
        · exact h1
        · exact ih true c h1 hw
    · rw [collapseAux, if_neg hwa] at h
      simp only [List.mem_cons] at h
      rcases h with h1 | h1
      · exact absurd (h1 ▸ hw) (by simp [hwa])
      · exact ih false c h1 hw

lemma collapse_chain : ∀ (l : Str),
    List.Chain' noPairWs (collapseAux false l) ∧
    List.Chain' noPairWs (collapseAux true l) ∧ hdOk (collapseAux true l) := by
  intro l
  induction l with
  | nil => exact ⟨List.chain'_nil, List.chain'_nil, fun c h => by cases h⟩
  | cons a t ih =>
    obtain ⟨ihf, iht, ihh⟩ := ih
    by_cases hw : wsB a
    · refine ⟨?_, ?_, ?_⟩
      · rw [collapseAux, if_pos hw, if_neg Bool.false_ne_true, List.chain'_cons']
        refine ⟨?_, iht⟩
        intro h hh hc
        have h1 := ihh h hh
        rw [hc.2] at h1
        exact absurd h1 (by simp)
      · rw [collapseAux, if_pos hw, if_pos rfl]
        exact iht
      · intro c hc
        rw [collapseAux, if_pos hw, if_pos rfl] at hc
        exact ihh c hc
    · refine ⟨?_, ?_, ?_⟩
      · rw [collapseAux, if_neg hw, List.chain'_cons']
        refine ⟨?_, ihf⟩
        intro h _ hc
        exact absurd hc.1 (by simp [hw])
      · rw [collapseAux, if_neg hw, List.chain'_cons']
        refine ⟨?_, ihf⟩
        intro h _ hc
        exact absurd hc.1 (by simp [hw])
      · intro c hc
        rw [collapseAux, if_neg hw] at hc
        simp only [List.head?_cons, Option.some.injEq] at hc
        subst hc
        simp [hw]

lemma collapse_id : ∀ (l : Str),
    List.Chain' noPairWs l → (∀ c ∈ l, wsB c = true → c = ' ') →
    collapseAux false l = l ∧ (hdOk l → collapseAux true l = l) := by
  intro l
  induction l with
  | nil => exact fun _ _ => ⟨rfl, fun _ => rfl⟩
  | cons a t ih =>
    intro hch hws
    have hcht : List.Chain' noPairWs t := hch.tail
    have hwst : ∀ c ∈ t, wsB c = true → c = ' ' :=
      fun c hc => hws c (List.mem_cons_of_mem a hc)
    by_cases hw : wsB a
    · have ha : a = ' ' := hws a (List.mem_cons_self a t) hw
      have hhdt : hdOk t := by
        intro c hc
        cases t with
        | nil => cases hc
        | cons b t' =>
          simp only [List.head?_cons, Option.some.injEq] at hc
          have hr := List.chain'_cons'.mp hch
          have h2 := hr.1 b (by simp)
          by_cases hwc : wsB b
          · exact absurd ⟨hw, hwc⟩ h2
          · rw [← hc]
            simpa using hwc
      have htid : collapseAux true t = t := ((ih hcht hwst).2) hhdt
      constructor
      · rw [collapseAux, if_pos hw, if_neg Bool.false_ne_true, htid, ha]
      · intro hhd
        have := hhd a rfl
        rw [hw] at this
        exact absurd this (by simp)
    · have hid : collapseAux false t = t := (ih hcht hwst).1
      constructor
      · rw [collapseAux, if_neg hw, hid]
      · intro _
        rw [collapseAux, if_neg hw, hid]

lemma chain_dropWhile (p : Char → Bool) :
    ∀ (l : Str), List.Chain' noPairWs l → List.Chain' noPairWs (l.dropWhile p) := by
  intro l
  induction l with
  | nil => intro h; exact h
  | cons a t ih =>
    intro h
    by_cases hp : p a
    · rw [List.dropWhile_cons, if_pos hp]
      exact ih h.tail
    · rw [List.dropWhile_cons, if_neg hp]
      exact h

lemma noPairWs_comm (a b : Char) : noPairWs a b → noPairWs b a := by
  intro h hc
  exact h ⟨hc.2, hc.1⟩

lemma chain_reverse_iff (l : Str) :
    List.Chain' noPairWs l.reverse ↔ List.Chain' noPairWs l := by
  rw [List.chain'_reverse]
  constructor
  · intro h
    exact h.imp (fun a b hab => noPairWs_comm b a hab)
  · intro h
    exact h.imp (fun a b hab => noPairWs_comm a b hab)

lemma chain_trimL (l : Str) (h : List.Chain' noPairWs l) :
    List.Chain' noPairWs (trimL l) := by
  unfold trimL
  rw [chain_reverse_iff]
  apply chain_dropWhile
  rw [chain_reverse_iff]
  exact chain_dropWhile wsB l h

lemma cleanText_noCtrl (l : Str) : ∀ c ∈ cleanText l, ctrlB c = false := by
  intro c hc
  unfold cleanText at hc
  by_cases h : isArtifact (trimL (collapseWs (removeCtrl l))) = true
  · rw [if_pos h] at hc
    cases hc
  · rw [if_neg h] at hc
    have h2 := mem_trimL _ c hc
    rcases collapse_mem false (removeCtrl l) c h2 with h3 | h3
    · have := List.mem_filter.mp h3
      simpa using this.2
    · subst h3
      rfl

lemma cleanText_nil : cleanText [] = [] := rfl

lemma cleanText_fix (l : Str) : cleanText (cleanText l) = cleanText l := by
  by_cases h : isArtifact (trimL (collapseWs (removeCtrl l))) = true
  · have h0 : cleanText l = [] := by
      unfold cleanText
      rw [if_pos h]
    rw [h0, cleanText_nil]
  · have h0 : cleanText l = trimL (collapseWs (removeCtrl l)) := by
      unfold cleanText
      rw [if_neg h]
    set y := trimL (collapseWs (removeCtrl l)) with hy
    have hrm : removeCtrl y = y := by
      apply List.filter_eq_self.mpr
      intro c hc
      have := cleanText_noCtrl l c (by rw [h0]; exact hc)
      simp [this]
    have hchain : List.Chain' noPairWs y := by
      rw [hy]
      exact chain_trimL _ (collapse_chain (removeCtrl l)).1
    have hwsp : ∀ c ∈ y, wsB c = true → c = ' ' := by
      intro c hc hw
      exact collapse_ws_space false (removeCtrl l) c (mem_trimL _ c (hy ▸ hc)) hw
    have hcol : collapseWs y = y := (collapse_id y hchain hwsp).1
    have htr : trimL y = y := by
      rw [hy]
      exact trimL_trimL (collapseWs (removeCtrl l))
    have hart : isArtifact y = false := by
      rw [hy]
      exact Bool.of_not_eq_true h
    rw [h0]
    unfold cleanText
    rw [hrm]
    unfold collapseWs
    unfold collapseWs at hcol
    rw [hcol, htr]
    simp [hart]

/-! ## Decoder lemmas -/

lemma isCont_pos (c : Nat) (h : isCont c = true) : 0x80 ≤ c := by
  simp [isCont] at h
  omega

lemma cont1ok3_pos (b c : Nat) (h : cont1ok3 b c = true) : 0x80 ≤ c := by
  unfold cont1ok3 at h
  split_ifs at h <;> simp [isCont] at h <;> omega

lemma cont1ok4_pos (b c : Nat) (h : cont1ok4 b c = true) : 0x80 ≤ c := by
  unfold cont1ok4 at h
  split_ifs at h <;> simp [isCont] at h <;> omega

/-- A NUL byte always survives the permissive UTF-8 decode: continuation
bytes are `0x80`-`0xBF` and lead bytes are `≥ 0x80`, so `0x00` is never
part of a consumed or skipped sequence. -/
lemma zero_mem_decodeCore (repl : Str) (l : List Nat) (h0 : 0 ∈ l) :
    Char.ofNat 0 ∈ decodeCore repl l := by
  induction l using decodeCore.induct repl with
  | case1 => cases h0
  | case2 c1 l1 h1 ih =>
    rw [decodeCore.eq_def]
    dsimp only
    rw [if_pos h1]
    simp only [List.mem_cons] at h0
    rcases h0 with h | h
    · rw [← h]
      exact List.mem_cons_self _ _
    · exact List.mem_cons_of_mem _ (ih h)
  | case3 c1 h1 h2 =>
    simp only [List.mem_cons, List.not_mem_nil, or_false] at h0
    omega
  | case4 c1 h1 h2 c2 l1 h3 ih =>
    rw [decodeCore.eq_def]
    dsimp only
    rw [if_neg h1, if_pos h2, if_pos h3]
    have hc2 := isCont_pos c2 h3
    simp only [List.mem_cons] at h0
    rcases h0 with h | h | h
    · omega
    · omega
    · exact List.mem_cons_of_mem _ (ih h)
  | case5 c1 h1 h2 c2 l1 h3 ih =>
    rw [decodeCore.eq_def]
    dsimp only
    rw [if_neg h1, if_pos h2, if_neg h3]
    simp only [List.mem_cons] at h0
    refine List.mem_append_right _ (ih ?_)
    simp only [List.mem_cons]
    rcases h0 with h | h
    · omega
    · exact h
  | case6 c1 h1 h2 h3 =>
    simp only [List.mem_cons, List.not_mem_nil, or_false] at h0
    omega
  | case7 c1 h1 h2 h3 c2 h4 =>
    have hc2 := cont1ok3_pos c1 c2 h4
    simp only [List.mem_cons, List.not_mem_nil, or_false] at h0
    rcases h0 with h | h <;> omega
  | case8 c1 h1 h2 h3 c2 h4 c3 l1 h5 ih =>
    rw [decodeCore.eq_def]
    dsimp only
    rw [if_neg h1, if_neg h2, if_pos h3, if_pos h4, if_pos h5]
    have hc2 := cont1ok3_pos c1 c2 h4
    have hc3 := isCont_pos c3 h5
    simp only [List.mem_cons] at h0
    rcases h0 with h | h | h | h
    · omega
    · omega
    · omega
    · exact List.mem_cons_of_mem _ (ih h)
  | case9 c1 h1 h2 h3 c2 h4 c3 l1 h5 ih =>
    rw [decodeCore.eq_def]
    dsimp only
    rw [if_neg h1, if_neg h2, if_pos h3, if_pos h4, if_neg h5]
    have hc2 := cont1ok3_pos c1 c2 h4
    simp only [List.mem_cons] at h0
    refine List.mem_append_right _ (ih ?_)
    simp only [List.mem_cons]
    rcases h0 with h | h | h
    · omega
    · omega
    · exact h
  | case10 c1 h1 h2 h3 c2 l1 h4 ih =>
    rw [decodeCore.eq_def]
    dsimp only
    rw [if_neg h1, if_neg h2, if_pos h3, if_neg h4]
    simp only [List.mem_cons] at h0
    refine List.mem_append_right _ (ih ?_)
    simp only [List.mem_cons]
    rcases h0 with h | h
    · omega
    · exact h
  | case11 c1 h1 h2 h3 h4 =>
    simp only [List.mem_cons, List.not_mem_nil, or_false] at h0
    omega
  | case12 c1 h1 h2 h3 h4 c2 h5 =>
    have hc2 := cont1ok4_pos c1 c2 h5
    simp only [List.mem_cons, List.not_mem_nil, or_false] at h0
    rcases h0 with h | h <;> omega
  | case13 c1 h1 h2 h3 h4 c2 h5 c3 h6 =>
    have hc2 := cont1ok4_pos c1 c2 h5
    have hc3 := isCont_pos c3 h6
    simp only [List.mem_cons, List.not_mem_nil, or_false] at h0
    rcases h0 with h | h | h <;> omega
  | case14 c1 h1 h2 h3 h4 c2 h5 c3 h6 c4 l1 h7 ih =>
    rw [decodeCore.eq_def]
    dsimp only
    rw [if_neg h1, if_neg h2, if_neg h3, if_pos h4, if_pos h5, if_pos h6, if_pos h7]
    have hc2 := cont1ok4_pos c1 c2 h5
    have hc3 := isCont_pos c3 h6
    have hc4 := isCont_pos c4 h7
    simp only [List.mem_cons] at h0
    rcases h0 with h | h | h | h | h
    · omega
    · omega
    · omega
    · omega
    · exact List.mem_cons_of_mem _ (ih h)
  | case15 c1 h1 h2 h3 h4 c2 h5 c3 h6 c4 l1 h7 ih =>
    rw [decodeCore.eq_def]
    dsimp only
    rw [if_neg h1, if_neg h2, if_neg h3, if_pos h4, if_pos h5, if_pos h6, if_neg h7]
    have hc2 := cont1ok4_pos c1 c2 h5
    have hc3 := isCont_pos c3 h6
    simp only [List.mem_cons] at h0
    refine List.mem_append_right _ (ih ?_)
    simp only [List.mem_cons]
    rcases h0 with h | h | h | h
    · omega
    · omega
    · omega
    · exact h
  | case16 c1 h1 h2 h3 h4 c2 h5 c3 l1 h6 ih =>
    rw [decodeCore.eq_def]
    dsimp only
    rw [if_neg h1, if_neg h2, if_neg h3, if_pos h4, if_pos h5, if_neg h6]
    have hc2 := cont1ok4_pos c1 c2 h5
    simp only [List.mem_cons] at h0
    refine List.mem_append_right _ (ih ?_)
    simp only [List.mem_cons]
    rcases h0 with h | h | h
    · omega
    · omega
    · exact h
  | case17 c1 h1 h2 h3 h4 c2 l1 h5 ih =>
    rw [decodeCore.eq_def]
    dsimp only
    rw [if_neg h1, if_neg h2, if_neg h3, if_pos h4, if_neg h5]
    simp only [List.mem_cons] at h0
    refine List.mem_append_right _ (ih ?_)
    simp only [List.mem_cons]
    rcases h0 with h | h
    · omega
    · exact h
  | case18 c1 l1 h1 h2 h3 h4 ih =>
    rw [decodeCore.eq_def]
    dsimp only
    rw [if_neg h1, if_neg h2, if_neg h3, if_neg h4]
    simp only [List.mem_cons] at h0
    refine List.mem_append_right _ (ih ?_)
    rcases h0 with h | h
    · omega
    · exact h

/-- NUL survival at the `decodeIgnore` interface. -/
lemma zero_mem_decodeIgnore (l : List Nat) (h : 0 ∈ l) :
    Char.ofNat 0 ∈ decodeIgnore l :=
  zero_mem_decodeCore [] l h

/-! ## Validator lemmas -/

lemma malwareScan_finds (content : Str) :
    ∀ (sigs : List (String × (Str → Bool))),
    (∃ pm ∈ sigs, pm.2 content = true) →
    ∃ pm ∈ sigs, malwareScan content sigs
      = (false, "Malware pattern detected: " ++ pm.1) := by
  intro sigs
  induction sigs with
  | nil => rintro ⟨pm, hm, _⟩; cases hm
  | cons hd rest ih =>
    rintro ⟨pm, hm, hmt⟩
    by_cases hh : hd.2 content = true
    · refine ⟨hd, List.mem_cons_self _ _, ?_⟩
      rw [malwareScan, if_pos hh]
    · rcases List.mem_cons.mp hm with h1 | h1
      · exact absurd (h1 ▸ hmt) hh
      · obtain ⟨pm', hm', he⟩ := ih ⟨pm, h1, hmt⟩
        refine ⟨pm', List.mem_cons_of_mem _ hm', ?_⟩
        rw [malwareScan, if_neg hh]
        exact he

lemma checkMalware_zero (bytes : List Nat) (h : 0 ∈ bytes) :
    ∃ pm ∈ malwareSignatures,
      checkMalware bytes = (false, "Malware pattern detected: " ++ pm.1) := by
  apply malwareScan_finds
  refine ⟨("\\x00|\\xFF|\\xFE", binMatch), ?_, ?_⟩
  · simp [malwareSignatures]
  · simp only [binMatch, List.any_eq_true]
    refine ⟨Char.ofNat 0, zero_mem_decodeIgnore bytes h, ?_⟩
    decide

lemma validateFileBytes_false_of_scan (S : Settings) (ext : String)
    (bytes : List Nat) (h : (checkMalware bytes).1 = false) :
    (validateFileBytes S ext bytes).1 = false := by
  unfold validateFileBytes
  dsimp only
  by_cases h1 : (checkMismatch ext bytes).1
  · rw [h1, h]
    simp
  · rw [Bool.of_not_eq_true h1]
    simp

lemma validateFileBytes_false_of_mismatch (S : Settings) (ext : String)
    (bytes : List Nat) (h : (checkMismatch ext bytes).1 = false) :
    (validateFileBytes S ext bytes).1 = false := by
  unfold validateFileBytes
  dsimp only
  rw [h]
  simp

/-! ## extract_text_with_ocr lemmas -/

lemma blockText_of_some (p : PageM) (b : Str) (h : pageBlock p = some b) :
    blockText p = b ++ chars "\n\n" := by
  unfold blockText
  rw [h]

lemma extractLoop_mem_split (pages : List PageM) (p : PageM) (hp : p ∈ pages)
    (b : Str) (hb : pageBlock p = some b) :
    ∃ u v, extractLoop pages = u ++ (b ++ chars "\n\n") ++ v := by
  obtain ⟨s, t, rfl⟩ := List.append_of_mem hp
  refine ⟨(s.map blockText).flatten, (t.map blockText).flatten, ?_⟩
  unfold extractLoop
  rw [List.map_append, List.map_cons, List.flatten_append, List.flatten_cons,
    blockText_of_some p b hb]
  simp [List.append_assoc]

lemma blockHasNonWs (p : PageM) (b : Str) (h : pageBlock p = some b) :
    ∃ c ∈ b, wsB c = false := by
  unfold pageBlock at h
  cases hn : p.native with
  | error e => rw [hn] at h; dsimp only at h; cases h
  | ok t =>
    rw [hn] at h
    dsimp only at h
    by_cases hlt : (trimL t).length < APP_MIN_TEXT_LENGTH
    · rw [if_pos hlt] at h
      cases ho : p.ocrText with
      | error e => rw [ho] at h; dsimp only at h; cases h
      | ok o =>
        rw [ho] at h
        dsimp only at h
        simp only [Option.some.injEq] at h
        refine ⟨'[', ?_, by decide⟩
        rw [← h]
        exact List.mem_append_left _ (List.mem_append_left _ (by decide))
    · rw [if_neg hlt] at h
      simp only [Option.some.injEq] at h
      subst h
      by_contra hno
      push_neg at hno
      have hall : ∀ c ∈ t, wsB c = true := by
        intro c hc
        have := hno c hc
        simpa using this
      have : trimL t = [] := (trimL_eq_nil_iff t).mpr hall
      rw [this] at hlt
      simp [APP_MIN_TEXT_LENGTH] at hlt

lemma extract_nil_iff (pages : List PageM) :
    extractTextWithOcr pages = [] ↔ ∀ p ∈ pages, pageBlock p = none := by
  unfold extractTextWithOcr
  rw [trimL_eq_nil_iff]
  constructor
  · intro h p hp
    by_contra hne
    obtain ⟨b, hb⟩ := Option.ne_none_iff_exists'.mp hne
    obtain ⟨c, hc, hcw⟩ := blockHasNonWs p b hb
    obtain ⟨u, v, he⟩ := extractLoop_mem_split pages p hp b hb
    have hcm : c ∈ extractLoop pages := by
      rw [he]
      exact List.mem_append_left _
        (List.mem_append_right _ (List.mem_append_left _ hc))
    have := h c hcm
    rw [hcw] at this
    cases this
  · intro h c hc
    have hnil : extractLoop pages = [] := by
      unfold extractLoop
      apply List.flatten_eq_nil_iff.mpr
      intro l hl
      obtain ⟨p, hp, rfl⟩ := List.mem_map.mp hl
      unfold blockText
      rw [h p hp]
    rw [hnil] at hc
    cases hc

lemma checkMismatch_false (ext want : String) (bytes : List Nat)
    (hlookup : mimeMap.lookup ext = some want) (hm : mimeOf bytes ≠ want) :
    (checkMismatch ext bytes).1 = false := by
  unfold checkMismatch
  rw [hlookup]
  dsimp only
  rw [if_pos hm]

lemma mimeOf_ne_pdf (bytes : List Nat)
    (hsig : List.isPrefixOf [0x25, 0x50, 0x44, 0x46, 0x2D] bytes = false) :
    mimeOf bytes ≠ "application/pdf" := by
  unfold mimeOf
  split_ifs with h1 h2 h3 h4 <;> intro h
  · rw [h1] at hsig; cases hsig
  · exact absurd h (by decide)
  · exact absurd h (by decide)
  · exact absurd h (by decide)
  · exact absurd h (by decide)

lemma mimeOf_ne_docx (bytes : List Nat)
    (hsig : List.isPrefixOf [0x50, 0x4B, 0x03, 0x04] bytes = false) :
    mimeOf bytes
      ≠ "application/vnd.openxmlformats-officedocument.wordprocessingml.document" := by
  unfold mimeOf
  split_ifs with h1 h2 h3 h4 <;> intro h
  · exact absurd h (by decide)
  · rw [h2] at hsig; cases hsig
  · exact absurd h (by decide)
  · exact absurd h (by decide)
  · exact absurd h (by decide)

lemma mimeOf_ne_jpg (bytes : List Nat)
    (hsig : List.isPrefixOf [0xFF, 0xD8, 0xFF] bytes = false) :
    mimeOf bytes ≠ "image/jpeg" := by
  unfold mimeOf
  split_ifs with h1 h2 h3 h4 <;> intro h
  · exact absurd h (by decide)
  · exact absurd h (by decide)
  · rw [h3] at hsig; cases hsig
  · exact absurd h (by decide)
  · exact absurd h (by decide)

lemma mimeOf_ne_png (bytes : List Nat)
    (hsig : List.isPrefixOf [0x89, 0x50, 0x4E, 0x47] bytes = false) :
    mimeOf bytes ≠ "image/png" := by
  unfold mimeOf
  split_ifs with h1 h2 h3 h4 <;> intro h
  · exact absurd h (by decide)
  · exact absurd h (by decide)
  · exact absurd h (by decide)
  · rw [h4] at hsig; cases hsig
  · exact absurd h (by decide)

/-! ## Claim theorems -/

/-- C8: the text normalizer `_clean_text` is idempotent:
`normalize(normalize(x)) == normalize(x)` for every input string,
including already-clean text. -/
theorem c8_clean_text_idempotent (x : Str) :
    cleanText (cleanText x) = cleanText x :=
  cleanText_fix x

/-- C2 (code evaluated at the failing input): with two tasks, one
completing at time 1 and one still running at the 300-second timeout,
`ParallelProcessor.process_batch` raises `TimeoutError` out of
`as_completed` — no result map is returned and the completed task's
result is discarded, contrary to the claim that partial results are
returned with timeout warnings. -/
theorem c2_timeout_raises_discarding_results :
    parProcessBatch [⟨"t1", 1, .ok "r1"⟩, ⟨"t2", 301, .ok "r2"⟩] 300
      = .error "concurrent.futures.TimeoutError"
    ∧ (⟨"t1", 1, .ok "r1"⟩ : PTask).finish ≤ 300 := by
  refine ⟨by decide, by decide⟩

/-- C1 counterexample: submitting the same path twice yields a
1-entry `BatchResult` while the input list has 2 elements, refuting
`len(BatchResult) == len(input files)` for batches with duplicates. -/
theorem c1_counter :
    (processBatch S0 fsC1 ["a.txt", "a.txt"]).length = 1
    ∧ (["a.txt", "a.txt"] : List String).length = 2 := by
  refine ⟨by decide, by decide⟩

/-- C1 (amended): the keys of `process_batch`'s result are exactly the
distinct submitted paths in first-submission order (so every submitted
path has an entry and `len(BatchResult)` equals the number of DISTINCT
input files); a worker exception is converted into an entry with empty
content and the non-empty warning `Processing failed: ...`, and
`process_batch` itself returns a map rather than raising. -/
theorem c1_batch_total (S : Settings) (fs : FS) (paths : List String) :
    dkeys (processBatch S fs paths) = dedupFirst paths
    ∧ (∀ p, p ∈ dedupFirst paths ↔ p ∈ paths)
    ∧ (∀ p, p ∈ paths →
        dlookup p (processBatch S fs paths) = some (entryOf (processSingle S fs p)))
    ∧ (∀ p s, processSingle S fs p = .error s →
        entryOf (processSingle S fs p)
          = ⟨[], none, ["Processing failed: " ++ s]⟩) := by
  refine ⟨?_, ?_, ?_, ?_⟩
  · unfold processBatch dedupFirst
    rw [dkeys_foldl]
    rfl
  · intro p
    unfold dedupFirst
    rw [mem_dedup_foldl]
    simp
  · intro p hp
    unfold processBatch
    rw [dlookup_foldl, if_pos hp]
  · intro p s he
    unfold entryOf
    rw [he]

/-- C1 witness: the amended theorem applied to a concrete 1-file batch. -/
theorem c1_witness :
    ("a.txt" ∈ ["a.txt"]) ∧
    dlookup "a.txt" (processBatch S0 fsC1 ["a.txt"])
      = some (entryOf (processSingle S0 fsC1 "a.txt")) :=
  ⟨List.mem_cons_self _ _,
   (c1_batch_total S0 fsC1 ["a.txt"]).2.2.1 "a.txt" (List.mem_cons_self _ _)⟩

/-- C9 counterexample: an empty `.txt` file extracts successfully to
empty content with NO warnings — the entry violates the invariant
`content == "" implies warnings nonempty`. -/
theorem c9_counter :
    dlookup "e.txt" (processBatch S0 fsC9 ["e.txt"]) = some eC9
    ∧ eC9.content = [] ∧ eC9.warnings = [] := by
  refine ⟨by decide, by decide, by decide⟩

/-- C9 (amended): on the exception path the invariant holds — a file
whose worker raises gets an entry with empty content and a non-empty
warning; the invariant fails only for successful extractions that
legitimately return empty text (which add no warning). -/
theorem c9_error_entries_warned (S : Settings) (fs : FS) (paths : List String)
    (p : String) (s : String) (hp : p ∈ paths)
    (he : processSingle S fs p = .error s) :
    ∃ e, dlookup p (processBatch S fs paths) = some e
      ∧ e.content = [] ∧ e.warnings ≠ [] := by
  refine ⟨entryOf (processSingle S fs p), ?_, ?_, ?_⟩
  · unfold processBatch
    rw [dlookup_foldl, if_pos hp]
  · rw [he]
    rfl
  · rw [he]
    simp [entryOf]

/-- C9 witness: a missing file raises at the stat; its entry has empty
content and a warning. -/
theorem c9_witness :
    processSingle S0 fsNone "x.txt" = .error "No such file or directory: x.txt"
    ∧ ∃ e, dlookup "x.txt" (processBatch S0 fsNone ["x.txt"]) = some e
      ∧ e.content = [] ∧ e.warnings ≠ [] :=
  ⟨rfl, c9_error_entries_warned S0 fsNone ["x.txt"] "x.txt" _
    (List.mem_cons_self _ _) rfl⟩

/-- C4 counterexample: a `.txt` file over the size limit gets the size
warning recorded AND is still extracted — its batch entry has non-empty
content coexisting with the validation warning, refuting "the worker
skips extraction entirely" and "validation failure never coexists with
extracted content". -/
theorem c4_counter :
    fmTxt.bytes.length > S1.maxFileSize
    ∧ dlookup "a.txt" (processBatch S1 fsC4 ["a.txt"]) = some eC4
    ∧ eC4.content = chars "hello" ∧ eC4.content ≠ []
    ∧ eC4.warnings = [sizeMsg S1 fmTxt.bytes.length] := by
  refine ⟨by decide, by decide, by decide, by decide, by decide⟩

/-- C4 (amended): a failed size check appends the verdict message as a
warning but does NOT skip the file — the extractor still runs and its
output is returned together with the warning (shown for the `.txt`
extractor, whose output is computable from the bytes). -/
theorem c4_limit_warning_extraction_proceeds (S : Settings) (fs : FS)
    (p : String) (fm : FileModel) (hfs : fs p = some fm)
    (hext : sfx p = ".txt") (hsize : fm.bytes.length > S.maxFileSize) :
    processSingle S fs p = .ok (cleanText (decodeReplace fm.bytes),
      ⟨"txt", fm.bytes.length, none⟩, [sizeMsg S fm.bytes.length]) := by
  unfold processSingle
  rw [hfs]
  dsimp only
  rw [hext]
  have h1 : ¬((".txt" : String) = ".pdf" ∧ pdfPageCount (some fm) > S.maxPages) := by
    rintro ⟨hc, _⟩
    exact absurd hc (by decide)
  rw [if_neg h1, if_pos hsize]
  rw [if_pos (by decide : (".txt" : String) ∈ processorExts)]
  unfold runProcessor
  rw [if_neg (by decide : ¬ (".txt" : String) = ".pdf"),
    if_neg (by decide : ¬ (".txt" : String) = ".docx"),
    if_pos (rfl : (".txt" : String) = ".txt")]
  unfold genMetadata
  rw [if_neg (by decide : ¬ (".txt" : String) = ".pdf")]
  dsimp only
  rfl

/-- C4 witness: the amended theorem at the concrete oversized file. -/
theorem c4_witness :
    fsC4 "a.txt" = some fmTxt ∧ sfx "a.txt" = ".txt"
    ∧ fmTxt.bytes.length > S1.maxFileSize
    ∧ processSingle S1 fsC4 "a.txt" = .ok (cleanText (decodeReplace fmTxt.bytes),
        ⟨"txt", fmTxt.bytes.length, none⟩, [sizeMsg S1 fmTxt.bytes.length]) :=
  ⟨rfl, by decide, by decide,
   c4_limit_warning_extraction_proceeds S1 fsC4 "a.txt" fmTxt rfl (by decide) (by decide)⟩

/-- C3 counterexample: a `.pdf` file whose bytes do not start with
`%PDF-` does make `validate_file` return `valid=false`, but the batch
pipeline never invokes the security validator: the file's entry carries
the (non-empty) extracted text and NO warnings, refuting "the file's
batch entry has empty content and a non-empty warning". -/
theorem c3_counter :
    List.isPrefixOf (sigFor ".pdf") fmC3.bytes = false
    ∧ (validateFileBytes S0 ".pdf" fmC3.bytes).1 = false
    ∧ dlookup "doc.pdf" (processBatch S0 fsC3 ["doc.pdf"]) = some eC3
    ∧ eC3.content ≠ [] ∧ eC3.warnings = [] := by
  refine ⟨by decide, by decide, by decide, by decide, by decide⟩

/-- C3 (amended): for every `.pdf`/`.docx`/`.jpg`/`.png` file whose
bytes do not start with the signature registered for its extension,
`SecurityValidator.validate_file` returns `valid=false` (the
extension/MIME agreement check fails under signature-based content
sniffing, and the remaining checks can only also fail); however
`process_batch` does not call the validator, so no batch-entry
consequence follows (see the counterexample). -/
theorem c3_mismatch_validate_false (S : Settings) (ext : String)
    (bytes : List Nat)
    (hext : ext = ".pdf" ∨ ext = ".docx" ∨ ext = ".jpg" ∨ ext = ".png")
    (hsig : List.isPrefixOf (sigFor ext) bytes = false) :
    (validateFileBytes S ext bytes).1 = false := by
  rcases hext with rfl | rfl | rfl | rfl
  · exact validateFileBytes_false_of_mismatch S _ bytes
      (checkMismatch_false _ _ bytes (by decide) (mimeOf_ne_pdf bytes hsig))
  · exact validateFileBytes_false_of_mismatch S _ bytes
      (checkMismatch_false _ _ bytes (by decide) (mimeOf_ne_docx bytes hsig))
  · exact validateFileBytes_false_of_mismatch S _ bytes
      (checkMismatch_false _ _ bytes (by decide) (mimeOf_ne_jpg bytes hsig))
  · exact validateFileBytes_false_of_mismatch S _ bytes
      (checkMismatch_false _ _ bytes (by decide) (mimeOf_ne_png bytes hsig))

/-- C3 witness: the amended theorem at a concrete mismatched PDF. -/
theorem c3_witness :
    List.isPrefixOf (sigFor ".pdf") [0x58, 0x59, 0x5A] = false
    ∧ (validateFileBytes S0 ".pdf" [0x58, 0x59, 0x5A]).1 = false :=
  ⟨by decide,
   c3_mismatch_validate_false S0 ".pdf" [0x58, 0x59, 0x5A] (Or.inl rfl) (by decide)⟩

/-- C5 counterexample: a file whose bytes contain 0xFF (the first bytes
of every JPEG) does NOT trigger the binary-pattern signature: the
permissive decode (`errors='ignore'`) drops the invalid 0xFF bytes
before the regex runs, and the file passes `validate_file` entirely. -/
theorem c5_counter :
    ((0xFF : Nat) ∈ [0xFF, 0xD8, 0xFF, 0xDB])
    ∧ checkMalware [0xFF, 0xD8, 0xFF, 0xDB] = (true, "")
    ∧ validateFileBytes S0 ".jpg" [0xFF, 0xD8, 0xFF, 0xDB] = (true, "File validated") := by
  refine ⟨by decide, by decide, by decide⟩

/-- C5 (amended): for every file whose raw bytes contain a NUL (0x00)
byte, the malicious-pattern scan reports a matching signature and
`validate_file` returns `valid=false`; bytes 0xFF/0xFE are invalid
UTF-8 and are dropped by the permissive decode, so they trigger the
binary pattern only via decoded characters U+00FF/U+00FE. -/
theorem c5_nul_detected (S : Settings) (ext : String) (bytes : List Nat)
    (h : 0 ∈ bytes) :
    (∃ pm ∈ malwareSignatures,
      checkMalware bytes = (false, "Malware pattern detected: " ++ pm.1))
    ∧ (validateFileBytes S ext bytes).1 = false := by
  refine ⟨checkMalware_zero bytes h, ?_⟩
  obtain ⟨pm, _, he⟩ := checkMalware_zero bytes h
  exact validateFileBytes_false_of_scan S ext bytes (by rw [he])

/-- C5 witness: the amended theorem at a concrete NUL-containing file. -/
theorem c5_witness :
    ((0 : Nat) ∈ [65, 0, 66])
    ∧ (validateFileBytes S0 ".txt" [65, 0, 66]).1 = false :=
  ⟨by decide, (c5_nul_detected S0 ".txt" [65, 0, 66] (by decide)).2⟩

/-- C6 counterexample: in `DocumentProcessor._process_pdf` a page that
raises does NOT get skipped with the other pages kept — the whole
document is re-done via OCR, so the returned content does not contain
the (long, non-failing) first page's native text. -/
theorem c6_counter :
    processPdf fmC6 = .ok (chars "[OCR Page 0]alpha[OCR Page 1]beta")
    ∧ containsSeq natC6 (chars "[OCR Page 0]alpha[OCR Page 1]beta") = false
    ∧ chars "[OCR Page 0]alpha[OCR Page 1]beta" ≠ [] := by
  refine ⟨by decide, by decide, by decide⟩

/-- C6 (amended): page-failure isolation holds in `extract_text_with_ocr`
(src/core/app.py): every page that raises is skipped and processing
continues, each non-failing page's appended text occurs inside the
accumulated output, and the (stripped) result is empty exactly when
every page fails.  (`DocumentProcessor._process_pdf` instead reacts to
a raising page by OCR-ing the whole document — see the counterexample.) -/
theorem c6_page_isolation_app_extractor (pages : List PageM) :
    (∀ p, p ∈ pages → ∀ b, pageBlock p = some b →
      ∃ u v, extractLoop pages = u ++ (b ++ chars "\n\n") ++ v)
    ∧ extractTextWithOcr pages = trimL (extractLoop pages)
    ∧ (extractTextWithOcr pages = [] ↔ ∀ p ∈ pages, pageBlock p = none) :=
  ⟨fun p hp b hb => extractLoop_mem_split pages p hp b hb, rfl,
   extract_nil_iff pages⟩

/-- C6 witness: the amended theorem at concrete pages — a surviving
page's text occurs in the output, and an all-failing document yields
the empty string. -/
theorem c6_witness :
    (∃ u v, extractLoop [pgFail, pgOk] = u ++ (natC6 ++ chars "\n\n") ++ v)
    ∧ extractTextWithOcr [pgFail] = [] := by
  constructor
  · exact (c6_page_isolation_app_extractor [pgFail, pgOk]).1 pgOk
      (by decide) natC6 (by decide)
  · exact (c6_page_isolation_app_extractor [pgFail]).2.2.mpr (by decide)

/-- C7: `_process_pdf` falls through to OCR exactly when native
extraction raises (document open or some page's `get_text`), or the
concatenated per-page text (with the appended page separators), after
stripping surrounding whitespace, is shorter than
`MIN_TEXT_LENGTH = 50`; otherwise the (cleaned) native text is returned
and OCR is never invoked. -/
theorem c7_ocr_trigger (fm : FileModel) :
    (processPdfTr fm).2 = ocrTriggerB fm
    ∧ ((processPdfTr fm).2 = false →
        processPdfTr fm = (.ok (cleanText (nativeConcat (nativePages fm))), false)) := by
  unfold processPdfTr ocrTriggerB nativePages
  cases hf : fm.fitz with
  | error e =>
    dsimp only
    cases hro : runOcr fm with
    | ok o => exact ⟨rfl, by intro h; cases h⟩
    | error e2 => exact ⟨rfl, by intro h; cases h⟩
  | ok pages =>
    dsimp only
    cases hfp : firstPageErr pages with
    | some e =>
      dsimp only
      cases hro : runOcr fm with
      | ok o => exact ⟨by simp, by intro h; cases h⟩
      | error e2 => exact ⟨by simp, by intro h; cases h⟩
    | none =>
      dsimp only
      by_cases hlen : (trimL (nativeConcat pages)).length < MIN_TEXT_LENGTH
      · rw [if_pos hlen]
        cases hro : runOcr fm with
        | ok o =>
          refine ⟨by simp [hlen], by intro h; cases h⟩
        | error e2 =>
          refine ⟨by simp [hlen], by intro h; cases h⟩
      · rw [if_neg hlen]
        refine ⟨by simp [hlen], by intro _; rfl⟩

/-- C7 witness: a document with one long native page and a broken OCR
engine — the flag is false and the cleaned native text is returned. -/
theorem c7_witness :
    (processPdfTr fmC7).2 = false
    ∧ processPdfTr fmC7 = (.ok (cleanText (nativeConcat (nativePages fmC7))), false) :=
  ⟨by decide, (c7_ocr_trigger fmC7).2 (by decide)⟩

/-- C10 counterexample: a `.txt` file containing a NUL byte satisfies
the claim's premise (no registered signature at the head) but fails
with the malware-pattern message, not `"Invalid file header"` — the
earlier checks can fire first. -/
theorem c10_counter :
    validateFileBytes S0 ".txt" [0]
      = (false, "Malware pattern detected: \\x00|\\xFF|\\xFE")
    ∧ validHeaders.any (fun sg => List.isPrefixOf sg (([0] : List Nat).take 4)) = false
    ∧ ("Malware pattern detected: \\x00|\\xFF|\\xFE" : String) ≠ "Invalid file header" := by
  refine ⟨by decide, by decide, by decide⟩

/-- C10 (amended): for every `.txt`/`.csv`/`.xlsx` file that passes the
malware scan and the size ceiling and whose first four bytes do not
start with any of the registered signatures, `validate_file` returns
exactly `(false, "Invalid file header")` — in particular every ordinary
well-formed plain-text or CSV file fails full validation (and `%PDF-`,
being 5 bytes against a 4-byte header read, can never match at all). -/
theorem c10_header_rejection (S : Settings) (ext : String) (bytes : List Nat)
    (hext : ext = ".txt" ∨ ext = ".csv" ∨ ext = ".xlsx")
    (hscan : (checkMalware bytes).1 = true)
    (hsize : bytes.length ≤ S.maxFileSize)
    (hmagic : validHeaders.any (fun sg => List.isPrefixOf sg (bytes.take 4)) = false) :
    validateFileBytes S ext bytes = (false, "Invalid file header") := by
  have h1 : checkMismatch ext bytes = (true, "") := by
    rcases hext with rfl | rfl | rfl
    · unfold checkMismatch
      rw [(by decide : mimeMap.lookup ".txt" = (none : Option String))]
    · unfold checkMismatch
      rw [(by decide : mimeMap.lookup ".csv" = (none : Option String))]
    · unfold checkMismatch
      rw [(by decide : mimeMap.lookup ".xlsx" = (none : Option String))]
  have h3 : checkMaxSize S bytes = (true, "") := by
    unfold checkMaxSize
    rw [if_neg (by omega : ¬ bytes.length > S.maxFileSize)]
  have h4 : checkMagic bytes = (false, "Invalid file header") := by
    unfold checkMagic
    dsimp only
    rw [if_neg (by rw [hmagic]; simp :
      ¬ validHeaders.any (fun sg => List.isPrefixOf sg (bytes.take 4)) = true)]
  unfold validateFileBytes
  dsimp only
  rw [h1, hscan, h3, h4]
  simp

/-- C10 witness: the amended theorem at a concrete 5-byte text file. -/
theorem c10_witness :
    (checkMalware ((chars "hello").map Char.toNat)).1 = true
    ∧ ((chars "hello").map Char.toNat).length ≤ S0.maxFileSize
    ∧ validHeaders.any
        (fun sg => List.isPrefixOf sg (((chars "hello").map Char.toNat).take 4)) = false
    ∧ validateFileBytes S0 ".txt" ((chars "hello").map Char.toNat)
        = (false, "Invalid file header") :=
  ⟨by decide, by decide, by decide,
   c10_header_rejection S0 ".txt" ((chars "hello").map Char.toNat) (Or.inl rfl)
     (by decide) (by decide) (by decide)⟩
